import Mathlib

/-!
Verification of the dofi dotfile manager against its specification.

The embedding models src/main.rs.  Filesystem paths are modelled
component-wise as lists of components (matching the component-wise
semantics of Rust Path::starts_with and Path::strip_prefix after
canonicalization).  The filesystem is a partial map from paths to
entries (regular file with content, directory, or symbolic link with a
target path).  Each filesystem primitive used by the program
(std::fs::remove_file, std::fs::rename, std::os::unix::fs::symlink,
std::fs::create_dir_all) is modelled as a state transformer returning
the outcome and the possibly modified filesystem; errors carry the
relevant io::ErrorKind.  The WalkDir iterator of the walkdir crate is
external to the repository, so the walker output is passed to the
embedded functions as an explicit sequence of items (error items or
directory entries with a file type), and the in-repo filter over that
sequence is embedded directly.
-/

namespace Dofi

/-- A filesystem path, as the list of its components (absolute,
with the root written as the empty list). -/
abbrev Path := List String

/-- A filesystem entry: a regular file with its content, a directory,
or a symbolic link with its target path. -/
inductive Entry : Type where
  | file (content : String)
  | dir
  | symlink (target : Path)
deriving DecidableEq

/-- The filesystem: a partial map from paths to entries. -/
abbrev Fs := Path → Option Entry

/-- Point update of a filesystem map. -/
def upd (s : Fs) (p : Path) (v : Option Entry) : Fs :=
  fun q => if q = p then v else s q

/-- Build a concrete filesystem from an association list. -/
def fsOfList (l : List (Path × Entry)) : Fs :=
  fun p => (l.find? (fun q => decide (q.1 = p))).map (fun q => q.2)

/-- The io::ErrorKind values relevant to the modelled primitives. -/
inductive IoErrorKind : Type where
  | notFound
  | alreadyExists
  | isADirectory
deriving DecidableEq

/-- A walkdir::Error, identified by the path it concerns. -/
structure WalkdirError : Type where
  path : Path
deriving DecidableEq

/-- The DofiError enumeration of src/main.rs. -/
inductive DofiError : Type where
  | genericIoError (kind : IoErrorKind)
  | baseIsNotPrefixOfFile (base file : Path)
  | fileIsNotRegular (file : Path)
  | invalidBaseDirectory (kind : IoErrorKind) (dirPath : Path)
  | invalidDotfilesDirectory (kind : IoErrorKind) (dirPath : Path)
  | listDirectoryFailed (e : WalkdirError)
  | fileIsNotADotfile (file : Path)
deriving DecidableEq

/-- The file type reported by a walkdir DirEntry. -/
inductive FileType : Type where
  | file
  | dir
  | symlink
deriving DecidableEq

/-- A walkdir DirEntry: a path together with its reported file type. -/
structure RawEntry : Type where
  path : Path
  file_type : FileType
deriving DecidableEq

/-- Component-wise Path::starts_with. -/
def startsWith (p root : Path) : Bool :=
  decide (root <+: p)

/-- Component-wise Path::strip_prefix, returning the suffix on success. -/
def stripRoot (root p : Path) : Option Path :=
  if root <+: p then some (p.drop root.length) else none

/-- Path::parent: none for the root, otherwise the path without its
last component. -/
def parentOf : Path → Option Path
  | [] => none
  | p => some p.dropLast

/-- The chain of nonempty ancestors of a path, shortest first
(for a path a/b/c this is a, a/b, a/b/c). -/
def prefixesOf (p : Path) : List Path :=
  (List.range p.length).map (fun i => p.take (i + 1))

/-- The base-tree path mirroring a dotfiles-tree path: the dotfiles
root is stripped and the remainder joined onto the base root. -/
def mirrorPath (base_directory dotfiles_directory f : Path) : Path :=
  base_directory ++ f.drop dotfiles_directory.length

/-- std::fs::remove_file: fails when nothing is at the path or the
path is a directory; otherwise deletes the entry (a symlink is
deleted, not followed). -/
def fs_remove_file (p : Path) (s : Fs) : Except IoErrorKind Unit × Fs :=
  match s p with
  | none => (.error .notFound, s)
  | some .dir => (.error .isADirectory, s)
  | some _ => (.ok (), upd s p none)

/-- std::os::unix::fs::symlink target link: fails when anything
already occupies the link path; otherwise creates the symlink. -/
def fs_symlink (target link : Path) (s : Fs) : Except IoErrorKind Unit × Fs :=
  match s link with
  | some _ => (.error .alreadyExists, s)
  | none => (.ok (), upd s link (some (.symlink target)))

/-- std::fs::rename: fails when the source is missing or the
destination is a directory; otherwise moves the entry, replacing any
non-directory destination. -/
def fs_rename (src dst : Path) (s : Fs) : Except IoErrorKind Unit × Fs :=
  match s src with
  | none => (.error .notFound, s)
  | some e =>
    match s dst with
    | some .dir => (.error .isADirectory, s)
    | _ => (.ok (), upd (upd s src none) dst (some e))

/-- Create each directory of a chain of paths in order: an existing
directory is kept, a missing one is created, and any path occupied by
a non-directory aborts the chain. -/
def mkdirChain (ps : List Path) (s : Fs) : Except IoErrorKind Unit × Fs :=
  match ps with
  | [] => (.ok (), s)
  | q :: rest =>
    match s q with
    | some .dir => mkdirChain rest s
    | some _ => (.error .alreadyExists, s)
    | none => mkdirChain rest (upd s q (some .dir))

/-- std::fs::create_dir_all: create every missing ancestor of the
path, failing if a component is occupied by a non-directory. -/
def create_dir_all (p : Path) (s : Fs) : Except IoErrorKind Unit × Fs :=
  mkdirChain (prefixesOf p) s

/-- The `if let Some(parent) = p.parent()` + create_dir_all step shared
by add_file and link_files. -/
def mkParents (p : Path) (s : Fs) : Except IoErrorKind Unit × Fs :=
  match parentOf p with
  | some par => create_dir_all par s
  | none => (.ok (), s)

/-- remove_file of src/main.rs: reject paths outside the dotfiles
directory, delete the stored file (propagating failure), then
best-effort delete the mirrored base-tree entry when present. -/
def remove_file (file base_directory dotfiles_directory : Path) (s : Fs) :
    Except DofiError Unit × Fs :=
  if ¬ startsWith file dotfiles_directory then
    (.error (.fileIsNotADotfile file), s)
  else
    match fs_remove_file file s with
    | (.error k, s1) => (.error (.genericIoError k), s1)
    | (.ok _, s1) =>
      match stripRoot dotfiles_directory file with
      | none => (.error (.baseIsNotPrefixOfFile base_directory file), s1)
      | some relative_file =>
        let lnk := base_directory ++ relative_file
        if (s1 lnk).isSome then
          (.ok (), (fs_remove_file lnk s1).2)
        else
          (.ok (), s1)

/-- add_file of src/main.rs: translate the path into the dotfiles
tree, create parent directories, move the file, and symlink it back. -/
def add_file (file base_directory dotfiles_directory : Path) (s : Fs) :
    Except DofiError Unit × Fs :=
  match stripRoot base_directory file with
  | none => (.error (.baseIsNotPrefixOfFile base_directory file), s)
  | some relative_file =>
    let new_file := dotfiles_directory ++ relative_file
    match mkParents new_file s with
    | (.error k, s1) => (.error (.genericIoError k), s1)
    | (.ok _, s1) =>
      match fs_rename file new_file s1 with
      | (.error k, s2) => (.error (.genericIoError k), s2)
      | (.ok _, s2) =>
        match fs_symlink new_file file s2 with
        | (.error k, s3) => (.error (.genericIoError k), s3)
        | (.ok _, s3) => (.ok (), s3)

/-- The body of the per-file loop of link_files of src/main.rs:
translate the dotfiles-tree path to its base-tree mirror, create
parent directories, with force remove any existing entry at the
mirror, and symlink the dotfiles file there. -/
def link_step (base_directory dotfiles_directory : Path) (force : Bool)
    (file : Path) (s : Fs) : Except DofiError Unit × Fs :=
  match stripRoot dotfiles_directory file with
  | none => (.error (.baseIsNotPrefixOfFile base_directory file), s)
  | some relative_file =>
    let lnk := base_directory ++ relative_file
    match mkParents lnk s with
    | (.error k, s1) => (.error (.genericIoError k), s1)
    | (.ok _, s1) =>
      match
        (if force && (s1 lnk).isSome then fs_remove_file lnk s1
         else (.ok (), s1)) with
      | (.error k, s2) => (.error (.genericIoError k), s2)
      | (.ok _, s2) =>
        match fs_symlink file lnk s2 with
        | (.error k, s3) => (.error (.genericIoError k), s3)
        | (.ok _, s3) => (.ok (), s3)

/-- The walker filter shared by link_files and list_files: keep
DirEntry items whose file type is a regular file, and keep every error
item (fail-open). -/
def walkFilter (raw : List (Except WalkdirError RawEntry)) :
    List (Except WalkdirError RawEntry) :=
  raw.filter fun e =>
    match e with
    | .ok ent => ent.file_type == FileType.file
    | .error _ => true

/-- The for-loop of link_files over the filtered walker sequence: the
question-mark on each item propagates the first walker error, and a
failing link_step aborts the loop. -/
def linkLoop (base_directory dotfiles_directory : Path) (force : Bool)
    (entries : List (Except WalkdirError RawEntry)) (s : Fs) :
    Except DofiError Unit × Fs :=
  match entries with
  | [] => (.ok (), s)
  | .error e :: _ => (.error (.listDirectoryFailed e), s)
  | .ok ent :: rest =>
    match link_step base_directory dotfiles_directory force ent.path s with
    | (.error err, s1) => (.error err, s1)
    | (.ok _, s1) => linkLoop base_directory dotfiles_directory force rest s1

/-- link_files of src/main.rs, with the raw walkdir sequence supplied
as input (the walkdir crate is external to the repository). -/
def link_files (raw : List (Except WalkdirError RawEntry))
    (base_directory dotfiles_directory : Path) (force : Bool) (s : Fs) :
    Except DofiError Unit × Fs :=
  linkLoop base_directory dotfiles_directory force (walkFilter raw) s

/-- The for-loop of list_files: print each path, propagating the first
walker error; the printed lines are accumulated. -/
def listLoop (entries : List (Except WalkdirError RawEntry))
    (acc : List Path) : Except DofiError Unit × List Path :=
  match entries with
  | [] => (.ok (), acc)
  | .error e :: _ => (.error (.listDirectoryFailed e), acc)
  | .ok ent :: rest => listLoop rest (acc ++ [ent.path])

/-- list_files of src/main.rs, with the raw walkdir sequence supplied
as input. -/
def list_files (raw : List (Except WalkdirError RawEntry)) :
    Except DofiError Unit × List Path :=
  listLoop (walkFilter raw) []

/-- Wrapper of lists entries as successful filtered walker items of
file type regular file. -/
def okEntries (files : List Path) : List (Except WalkdirError RawEntry) :=
  files.map (fun f => .ok { path := f, file_type := FileType.file })

/-- toDotfiles of the specification, as computed by add_file: strip
the base root and join the remainder onto the dotfiles root. -/
def toDotfiles (file base_directory dotfiles_directory : Path) : Option Path :=
  (stripRoot base_directory file).map (fun r => dotfiles_directory ++ r)

/-- toBase of the specification, as computed by remove_file and
link_files: strip the dotfiles root and join onto the base root. -/
def toBase (file base_directory dotfiles_directory : Path) : Option Path :=
  (stripRoot dotfiles_directory file).map (fun r => base_directory ++ r)

/-- Path::canonicalize, restricted to resolving chains of symbolic
links at the given path (intermediate directories are assumed already
canonical, as the program canonicalizes both roots up front).  The
fuel bounds symlink chains, modelling the kernel ELOOP limit; none
models failure (missing entry or too many levels of links). -/
def canonicalize (fuel : Nat) (p : Path) (s : Fs) : Option Path :=
  match fuel with
  | 0 => none
  | n + 1 =>
    match s p with
    | none => none
    | some (.symlink t) => canonicalize n t s
    | some _ => some p

/-- Path::is_file: follow symlinks and test for a regular file. -/
def path_is_file (fuel : Nat) (p : Path) (s : Fs) : Bool :=
  match canonicalize fuel p s with
  | some q =>
    match s q with
    | some (.file _) => true
    | _ => false
  | none => false

/-- The Commands::Remove arm of main in src/main.rs: reject inputs
that do not resolve to a regular file, canonicalize the input path
(resolving symlinks), and call remove_file on the result. -/
def remove_command (fuel : Nat) (file base_directory dotfiles_directory : Path)
    (s : Fs) : Except DofiError Unit × Fs :=
  if ¬ path_is_file fuel file s then
    (.error (.fileIsNotRegular file), s)
  else
    match canonicalize fuel file s with
    | none => (.error (.genericIoError .notFound), s)
    | some f => remove_file f base_directory dotfiles_directory s

end Dofi

namespace Dofi

/-- Marker for the BaseIsNotPrefixOfFile outcome of an operation. -/
def isPrefixMismatch : Except DofiError Unit → Bool
  | .error (.baseIsNotPrefixOfFile _ _) => true
  | _ => false

/-- The per-file invariant established by a successful forced link
step: the mirrored base-tree path holds a symlink to the dotfiles
file and every ancestor of that path is a directory. -/
def stepGood (base_directory dotfiles_directory f : Path) (s : Fs) : Prop :=
  s (mirrorPath base_directory dotfiles_directory f) = some (Entry.symlink f) ∧
  ∀ q ∈ prefixesOf (mirrorPath base_directory dotfiles_directory f).dropLast,
    s q = some Entry.dir

/-- Concrete filesystem for the Remove-on-a-symlink scenario: the
stored file home/u/d/b and the symlink home/u/b pointing at it. -/
def linkedFs : Fs := fsOfList
  [ (["home"], .dir),
    (["home", "u"], .dir),
    (["home", "u", "d"], .dir),
    (["home", "u", "d", "b"], .file "x"),
    (["home", "u", "b"], .symlink ["home", "u", "d", "b"]) ]

/-- Concrete filesystem for the forced-relink scenario: directories
home, home/u, home/u/d and the stored file home/u/d/v, written as a
chain of point updates over the empty map. -/
def demoFs : Fs :=
  upd (upd (upd (upd (fun _ => none) ["home"] (some Entry.dir))
    ["home", "u"] (some Entry.dir)) ["home", "u", "d"] (some Entry.dir))
    ["home", "u", "d", "v"] (some (Entry.file "x"))

theorem upd_same (s : Fs) (p : Path) (v : Option Entry) : upd s p v p = v := by
  simp [upd]

theorem upd_ne (s : Fs) (p q : Path) (v : Option Entry) (h : q ≠ p) :
    upd s p v q = s q := by
  simp [upd, h]

theorem upd_idem (s : Fs) (p : Path) (v w : Option Entry) :
    upd (upd s p v) p w = upd s p w := by
  funext q
  by_cases h : q = p <;> simp [upd, h]

theorem upd_self (s : Fs) (p : Path) (v : Option Entry) (h : s p = v) :
    upd s p v = s := by
  funext q
  by_cases hq : q = p
  · subst hq; simp [upd, h]
  · simp [upd, hq]

theorem stripRoot_eq_some {root p rel : Path} :
    stripRoot root p = some rel ↔ root <+: p ∧ rel = p.drop root.length := by
  unfold stripRoot
  split
  · simp_all [eq_comm]
  · simp_all

theorem stripRoot_append (root t : Path) : stripRoot root (root ++ t) = some t := by
  unfold stripRoot
  rw [if_pos (List.prefix_append root t)]
  simp [List.drop_left]

theorem mem_prefixesOf {q p : Path} (h : q ∈ prefixesOf p) : q <+: p := by
  simp only [prefixesOf, List.mem_map, List.mem_range] at h
  obtain ⟨i, _, rfl⟩ := h
  exact List.take_prefix _ _

theorem mem_prefixesOf_dropLast_ne {q p : Path} (h : q ∈ prefixesOf p.dropLast) :
    q ≠ p := by
  simp only [prefixesOf, List.mem_map, List.mem_range] at h
  obtain ⟨i, hi, rfl⟩ := h
  intro hqp
  have h1 := congrArg List.length hqp
  simp [List.length_take, List.length_dropLast] at h1 hi
  omega

end Dofi

namespace Dofi

theorem startsWith_true {p root : Path} (h : root <+: p) :
    startsWith p root = true :=
  decide_eq_true h

theorem stripRoot_of_sub {root p : Path} (h : root <+: p) :
    stripRoot root p = some (p.drop root.length) := by
  simp [stripRoot, h]

theorem remove_file_ok {g base_directory dotfiles_directory : Path} {s : Fs}
    {e : Entry} (hsub : dotfiles_directory <+: g)
    (hsg : s g = some e) (hnd : e ≠ Entry.dir) :
    (remove_file g base_directory dotfiles_directory s).1 = .ok () := by
  unfold remove_file
  rw [if_neg (by simp [startsWith_true hsub])]
  unfold fs_remove_file
  rw [hsg]
  cases e with
  | dir => exact absurd rfl hnd
  | file c =>
    simp only [stripRoot_of_sub hsub]
    split <;> rfl
  | symlink t =>
    simp only [stripRoot_of_sub hsub]
    split <;> rfl

/-- Claim C2: path-translation round-trip.  For any path f with the
base directory as a component-wise prefix, translating f into the
dotfiles tree and back yields f again. -/
theorem round_trip (f base_directory dotfiles_directory : Path)
    (h : base_directory <+: f) :
    ∃ g, toDotfiles f base_directory dotfiles_directory = some g ∧
      toBase g base_directory dotfiles_directory = some f := by
  obtain ⟨t, rfl⟩ := h
  refine ⟨dotfiles_directory ++ t, ?_, ?_⟩
  · simp [toDotfiles, stripRoot_append]
  · simp [toBase, stripRoot_append]

theorem round_trip_witness :
    (["home", "u"] : Path) <+: ["home", "u", "b"] ∧
    ∃ g, toDotfiles ["home", "u", "b"] ["home", "u"] ["home", "u", "d"] = some g ∧
      toBase g ["home", "u"] ["home", "u", "d"] = some ["home", "u", "b"] :=
  ⟨by decide, round_trip ["home", "u", "b"] ["home", "u"] ["home", "u", "d"] (by decide)⟩

/-- Claim C6: prefix rejection.  add_file fails with
BaseIsNotPrefixOfFile (the PrefixMismatch of the specification) when
the file is not component-wise under the base directory, and
remove_file fails with FileIsNotADotfile when its input is not
component-wise under the dotfiles directory. -/
theorem prefix_rejection (f g base_directory dotfiles_directory : Path)
    (s t : Fs)
    (hf : ¬ base_directory <+: f) (hg : ¬ dotfiles_directory <+: g) :
    (add_file f base_directory dotfiles_directory s).1 =
      .error (.baseIsNotPrefixOfFile base_directory f) ∧
    (remove_file g base_directory dotfiles_directory t).1 =
      .error (.fileIsNotADotfile g) := by
  constructor
  · simp [add_file, stripRoot, hf]
  · simp [remove_file, startsWith, hg]

theorem prefix_rejection_witness :
    ¬ (["home", "u"] : Path) <+: ["etc", "b"] ∧
    ¬ (["home", "u", "d"] : Path) <+: ["home", "u", "b"] ∧
    ((add_file ["etc", "b"] ["home", "u"] ["home", "u", "d"] linkedFs).1 =
      .error (.baseIsNotPrefixOfFile ["home", "u"] ["etc", "b"]) ∧
     (remove_file ["home", "u", "b"] ["home", "u"] ["home", "u", "d"] linkedFs).1 =
      .error (.fileIsNotADotfile ["home", "u", "b"])) :=
  ⟨by decide, by decide,
    prefix_rejection ["etc", "b"] ["home", "u", "b"] ["home", "u"] ["home", "u", "d"]
      linkedFs linkedFs (by decide) (by decide)⟩

/-- Claim C7: Remove's symlink cleanup is best-effort.  Once the
stored file under the dotfiles directory has been deleted, remove_file
returns success whatever occupies the mirrored base-tree path: a
failing deletion there (for example a directory) is swallowed, and a
missing entry is also success. -/
theorem remove_cleanup_best_effort (g base_directory dotfiles_directory : Path)
    (s : Fs) (e : Entry) (hsub : dotfiles_directory <+: g)
    (hsg : s g = some e) (hnd : e ≠ Entry.dir) :
    (remove_file g base_directory dotfiles_directory s).1 = .ok () :=
  remove_file_ok hsub hsg hnd

theorem remove_cleanup_best_effort_witness :
    (["home", "u", "d"] : Path) <+: ["home", "u", "d", "b"] ∧
    linkedFs ["home", "u", "d", "b"] = some (Entry.file "x") ∧
    Entry.file "x" ≠ Entry.dir ∧
    (remove_file ["home", "u", "d", "b"] ["home", "u"] ["home", "u", "d"] linkedFs).1 =
      .ok () :=
  ⟨by decide, by rfl, by decide,
    remove_cleanup_best_effort ["home", "u", "d", "b"] ["home", "u"] ["home", "u", "d"]
      linkedFs (Entry.file "x") (by decide) (by rfl) (by decide)⟩

/-- Claim C10: in remove_file the error branch that would produce
BaseIsNotPrefixOfFile from strip_prefix is unreachable: for every
input, filesystem and pair of directories, the result of remove_file
is never that error (once the starts_with check on the dotfiles
directory passes, strip_prefix always succeeds). -/
theorem strip_branch_unreachable (f base_directory dotfiles_directory : Path)
    (s : Fs) :
    isPrefixMismatch ((remove_file f base_directory dotfiles_directory s).1) = false := by
  unfold remove_file
  by_cases h : dotfiles_directory <+: f
  · rw [if_neg (by simp [startsWith_true h])]
    rcases hfs : fs_remove_file f s with ⟨r, s1⟩
    cases r with
    | error k => simp [isPrefixMismatch]
    | ok u =>
      simp only [stripRoot_of_sub h]
      split <;> rfl
  · rw [if_pos (by simp [startsWith, h])]
    rfl

/-- Claim C8: the walker filter underlying Link and List keeps exactly
the entries whose reported file type is a regular file (directories
and symlinks are dropped) and passes every error item through
fail-open. -/
theorem walk_filter_spec (raw : List (Except WalkdirError RawEntry))
    (e : Except WalkdirError RawEntry) :
    e ∈ walkFilter raw ↔
      e ∈ raw ∧ (match e with
        | .ok ent => ent.file_type = FileType.file
        | .error _ => True) := by
  unfold walkFilter
  rw [List.mem_filter]
  cases e with
  | error w => simp
  | ok ent => simp [beq_iff_eq]

end Dofi

namespace Dofi

theorem linkLoop_append_error (base_directory dotfiles_directory : Path)
    (force : Bool) (pre post : List (Except WalkdirError RawEntry))
    (e : WalkdirError) (s : Fs)
    (h : (linkLoop base_directory dotfiles_directory force pre s).1 = .ok ()) :
    linkLoop base_directory dotfiles_directory force (pre ++ .error e :: post) s =
      (.error (.listDirectoryFailed e),
        (linkLoop base_directory dotfiles_directory force pre s).2) := by
  induction pre generalizing s with
  | nil => simp [linkLoop]
  | cons hd rest ih =>
    cases hd with
    | error w => simp [linkLoop] at h
    | ok ent =>
      simp only [List.cons_append, linkLoop] at h ⊢
      rcases hst : link_step base_directory dotfiles_directory force ent.path s with ⟨r, s1⟩
      rw [hst] at h
      cases r with
      | error err => simp at h
      | ok u => exact ih s1 h

theorem listLoop_append_error (preL postL : List (Except WalkdirError RawEntry))
    (e : WalkdirError) (acc : List Path)
    (h : (listLoop preL acc).1 = .ok ()) :
    listLoop (preL ++ .error e :: postL) acc =
      (.error (.listDirectoryFailed e), (listLoop preL acc).2) := by
  induction preL generalizing acc with
  | nil => simp [listLoop]
  | cons hd rest ih =>
    cases hd with
    | error w => simp [listLoop] at h
    | ok ent =>
      simp only [List.cons_append, listLoop] at h ⊢
      exact ih _ h

/-- Claim C9: fail-fast walk.  In the loops of link_files and
list_files, the first walker error aborts the operation with that
error, the filesystem and output are exactly those produced by the
entries before the error, and the entries after the error are never
processed (the result does not depend on them). -/
theorem fail_fast_first_error (base_directory dotfiles_directory : Path)
    (force : Bool) (pre post preL postL : List (Except WalkdirError RawEntry))
    (e : WalkdirError) (s : Fs) (acc : List Path)
    (h1 : (linkLoop base_directory dotfiles_directory force pre s).1 = .ok ())
    (h2 : (listLoop preL acc).1 = .ok ()) :
    linkLoop base_directory dotfiles_directory force (pre ++ .error e :: post) s =
      (.error (.listDirectoryFailed e),
        (linkLoop base_directory dotfiles_directory force pre s).2) ∧
    listLoop (preL ++ .error e :: postL) acc =
      (.error (.listDirectoryFailed e), (listLoop preL acc).2) :=
  ⟨linkLoop_append_error base_directory dotfiles_directory force pre post e s h1,
   listLoop_append_error preL postL e acc h2⟩

theorem fail_fast_first_error_witness :
    (linkLoop ["home", "u"] ["home", "u", "d"] false [] linkedFs).1 = .ok () ∧
    (listLoop [.ok { path := ["home", "u", "d", "b"], file_type := .file }] []).1 = .ok () ∧
    (linkLoop ["home", "u"] ["home", "u", "d"] false
        ([] ++ .error { path := ["home", "u", "d", "z"] } ::
          [.ok { path := ["home", "u", "d", "b"], file_type := .file }]) linkedFs =
      (.error (.listDirectoryFailed { path := ["home", "u", "d", "z"] }),
        (linkLoop ["home", "u"] ["home", "u", "d"] false [] linkedFs).2) ∧
     listLoop ([.ok { path := ["home", "u", "d", "b"], file_type := .file }] ++
          .error { path := ["home", "u", "d", "z"] } :: []) [] =
      (.error (.listDirectoryFailed { path := ["home", "u", "d", "z"] }),
        (listLoop [.ok { path := ["home", "u", "d", "b"], file_type := .file }] []).2)) :=
  ⟨rfl, rfl,
    fail_fast_first_error ["home", "u"] ["home", "u", "d"] false []
      [.ok { path := ["home", "u", "d", "b"], file_type := .file }]
      [.ok { path := ["home", "u", "d", "b"], file_type := .file }] []
      { path := ["home", "u", "d", "z"] } linkedFs [] rfl rfl⟩

end Dofi

namespace Dofi

theorem mkParents_eq (p : Path) (s : Fs) :
    mkParents p s = mkdirChain (prefixesOf p.dropLast) s := by
  cases p with
  | nil => simp [mkParents, parentOf, prefixesOf, mkdirChain]
  | cons a q => simp [mkParents, parentOf, create_dir_all]

theorem mkdirChain_noop (ps : List Path) (s : Fs)
    (h : ∀ q ∈ ps, s q = some Entry.dir) : mkdirChain ps s = (.ok (), s) := by
  induction ps with
  | nil => rfl
  | cons a rest ih =>
    have ha := h a (List.mem_cons_self a rest)
    simp only [mkdirChain, ha]
    exact ih (fun q hq => h q (List.mem_cons_of_mem a hq))

theorem mkdirChain_pres (ps : List Path) (s : Fs) (p : Path) (e : Entry)
    (h : s p = some e) : (mkdirChain ps s).2 p = some e := by
  induction ps generalizing s with
  | nil => exact h
  | cons a rest ih =>
    rcases ha : s a with _ | ea
    · have hpa : p ≠ a := by
        intro hh; rw [hh, ha] at h; cases h
      simp only [mkdirChain, ha]
      exact ih (upd s a (some Entry.dir)) (by rw [upd_ne s a p _ hpa]; exact h)
    · cases ea with
      | dir =>
        simp only [mkdirChain, ha]
        exact ih s h
      | file c => simp only [mkdirChain, ha]; exact h
      | symlink t => simp only [mkdirChain, ha]; exact h

theorem mkdirChain_outside (ps : List Path) (s : Fs) (p : Path) (h : p ∉ ps) :
    (mkdirChain ps s).2 p = s p := by
  induction ps generalizing s with
  | nil => rfl
  | cons a rest ih =>
    have hpa : p ≠ a := fun hh => h (hh ▸ List.mem_cons_self a rest)
    have hrest : p ∉ rest := fun hh => h (List.mem_cons_of_mem a hh)
    rcases ha : s a with _ | ea
    · simp only [mkdirChain, ha]
      rw [ih (upd s a (some Entry.dir)) hrest, upd_ne s a p _ hpa]
    · cases ea with
      | dir => simp only [mkdirChain, ha]; exact ih s hrest
      | file c => simp only [mkdirChain, ha]
      | symlink t => simp only [mkdirChain, ha]

theorem mkdirChain_ok_dirs (ps : List Path) (s : Fs)
    (h : (mkdirChain ps s).1 = .ok ()) :
    ∀ q ∈ ps, (mkdirChain ps s).2 q = some Entry.dir := by
  induction ps generalizing s with
  | nil => intro q hq; cases hq
  | cons a rest ih =>
    intro q hq
    rcases ha : s a with _ | ea
    · simp only [mkdirChain, ha] at h ⊢
      rcases List.mem_cons.mp hq with rfl | hq2
      · exact mkdirChain_pres rest _ q Entry.dir (upd_same s q (some Entry.dir))
      · exact ih _ h q hq2
    · cases ea with
      | dir =>
        simp only [mkdirChain, ha] at h ⊢
        rcases List.mem_cons.mp hq with rfl | hq2
        · exact mkdirChain_pres rest s q Entry.dir ha
        · exact ih s h q hq2
      | file c => simp [mkdirChain, ha] at h
      | symlink t => simp [mkdirChain, ha] at h

/-- Claim C5: Link without force fails on occupied mirrored paths.
For a walked dotfiles file whose mirrored base-tree path is occupied
by any entry (its ancestors being directories, as on a real
filesystem), the loop of link_files with force off fails at the
symlink-creation step with the AlreadyExists error, surfaced to the
caller, and the filesystem is left unchanged. -/
theorem link_noforce_occupied_fails (base_directory dotfiles_directory f : Path)
    (rest : List (Except WalkdirError RawEntry)) (s : Fs) (e : Entry)
    (hsub : dotfiles_directory <+: f)
    (hocc : s (mirrorPath base_directory dotfiles_directory f) = some e)
    (hpar : ∀ q ∈ prefixesOf (mirrorPath base_directory dotfiles_directory f).dropLast,
      s q = some Entry.dir) :
    linkLoop base_directory dotfiles_directory false
      (.ok { path := f, file_type := FileType.file } :: rest) s =
      (.error (.genericIoError .alreadyExists), s) := by
  have hmk : mkParents (mirrorPath base_directory dotfiles_directory f) s = (.ok (), s) := by
    rw [mkParents_eq]
    exact mkdirChain_noop _ s hpar
  simp only [linkLoop, link_step, stripRoot_of_sub hsub]
  simp only [mirrorPath] at hmk hocc
  simp [hmk, fs_symlink, hocc]

theorem link_noforce_occupied_fails_witness :
    (["home", "u", "d"] : Path) <+: ["home", "u", "d", "b"] ∧
    linkedFs (mirrorPath ["home", "u"] ["home", "u", "d"] ["home", "u", "d", "b"]) =
      some (Entry.symlink ["home", "u", "d", "b"]) ∧
    (∀ q ∈ prefixesOf (mirrorPath ["home", "u"] ["home", "u", "d"]
        ["home", "u", "d", "b"]).dropLast, linkedFs q = some Entry.dir) ∧
    linkLoop ["home", "u"] ["home", "u", "d"] false
      (.ok { path := ["home", "u", "d", "b"], file_type := FileType.file } :: []) linkedFs =
      (.error (.genericIoError .alreadyExists), linkedFs) :=
  ⟨by decide, by rfl, by decide,
    link_noforce_occupied_fails ["home", "u"] ["home", "u", "d"] ["home", "u", "d", "b"]
      [] linkedFs (Entry.symlink ["home", "u", "d", "b"]) (by decide) (by rfl) (by decide)⟩

end Dofi

namespace Dofi

/-- Claim C1 counterexample: with base home/u and dotfiles home/u/d,
invoking the Remove command on home/u/b — the base-tree symlink of the
managed file home/u/d/b — succeeds instead of failing with
FileIsNotADotfile, because main canonicalizes the input path, which
resolves the symlink to the stored file under the dotfiles
directory. -/
theorem remove_on_symlink_cex :
    (remove_command 2 ["home", "u", "b"] ["home", "u"] ["home", "u", "d"] linkedFs).1 =
      .ok () ∧
    (remove_command 2 ["home", "u", "b"] ["home", "u"] ["home", "u", "d"] linkedFs).1 ≠
      .error (.fileIsNotADotfile ["home", "u", "b"]) := by
  have h : (remove_command 2 ["home", "u", "b"] ["home", "u"] ["home", "u", "d"] linkedFs).1 =
      .ok () := rfl
  refine ⟨h, ?_⟩
  rw [h]
  intro hh
  cases hh

/-- Claim C1 as amended: invoking Remove on the base-tree symlink of a
managed file does not fail with FileIsNotADotfile; the input path is
canonicalized, which resolves the symlink to the stored file under the
dotfiles directory, and the operation succeeds.  The input path is
still not resolved relative to the base directory: only symlink
resolution is applied. -/
theorem remove_on_symlink_resolves (fuel : Nat)
    (p t base_directory dotfiles_directory : Path) (s : Fs) (c : String)
    (hp : s p = some (Entry.symlink t)) (ht : s t = some (Entry.file c))
    (hsub : dotfiles_directory <+: t) (hfuel : 2 ≤ fuel) :
    (remove_command fuel p base_directory dotfiles_directory s).1 = .ok () := by
  obtain ⟨k, rfl⟩ : ∃ k, fuel = k + 2 := ⟨fuel - 2, by omega⟩
  have hcan : canonicalize (k + 2) p s = some t := by
    simp [canonicalize, hp, ht]
  have hisf : path_is_file (k + 2) p s = true := by
    simp [path_is_file, hcan, ht]
  unfold remove_command
  rw [if_neg (by simp [hisf])]
  rw [hcan]
  exact remove_file_ok hsub ht (by intro hh; cases hh)

theorem remove_on_symlink_resolves_witness :
    linkedFs ["home", "u", "b"] = some (Entry.symlink ["home", "u", "d", "b"]) ∧
    linkedFs ["home", "u", "d", "b"] = some (Entry.file "x") ∧
    (["home", "u", "d"] : Path) <+: ["home", "u", "d", "b"] ∧
    2 ≤ 2 ∧
    (remove_command 2 ["home", "u", "b"] ["home", "u"] ["home", "u", "d"] linkedFs).1 =
      .ok () :=
  ⟨by rfl, by rfl, by decide, by decide,
    remove_on_symlink_resolves 2 ["home", "u", "b"] ["home", "u", "d", "b"]
      ["home", "u"] ["home", "u", "d"] linkedFs "x" (by rfl) (by rfl) (by decide)
      (by decide)⟩

end Dofi

namespace Dofi

theorem fs_rename_ok {src dst : Path} {s : Fs} {e : Entry}
    (hsrc : s src = some e) (hdst : s dst ≠ some Entry.dir) :
    fs_rename src dst s = (.ok (), upd (upd s src none) dst (some e)) := by
  unfold fs_rename
  rw [hsrc]
  rcases h : s dst with _ | ed
  · rfl
  · cases ed with
    | dir => exact absurd h hdst
    | file c => rfl
    | symlink t => rfl

theorem fs_symlink_ok {target lnk : Path} {s : Fs} (h : s lnk = none) :
    fs_symlink target lnk s = (.ok (), upd s lnk (some (Entry.symlink target))) := by
  unfold fs_symlink
  rw [h]

/-- Claim C3: Add postcondition.  For a regular file under the base
directory, when add_file succeeds the original path holds a symlink
whose target is the translated dotfiles path, that target holds a
regular file with the original content, and the original path is no
longer a regular file. -/
theorem add_postcondition (file base_directory dotfiles_directory : Path)
    (s : Fs) (c : String)
    (hfile : s file = some (Entry.file c))
    (hne : base_directory ≠ dotfiles_directory)
    (hok : (add_file file base_directory dotfiles_directory s).1 = .ok ()) :
    ∃ tgt, toDotfiles file base_directory dotfiles_directory = some tgt ∧
      (add_file file base_directory dotfiles_directory s).2 file =
        some (Entry.symlink tgt) ∧
      (add_file file base_directory dotfiles_directory s).2 tgt =
        some (Entry.file c) ∧
      ∀ c2, (add_file file base_directory dotfiles_directory s).2 file ≠
        some (Entry.file c2) := by
  by_cases hpre : base_directory <+: file
  · obtain ⟨tt, hft⟩ := hpre
    subst hft
    have hneq : base_directory ++ tt ≠ dotfiles_directory ++ tt :=
      fun hh => hne (List.append_cancel_right hh)
    rcases hmk : mkParents (dotfiles_directory ++ tt) s with ⟨r1, s1⟩
    cases r1 with
    | error k =>
      rw [show add_file (base_directory ++ tt) base_directory dotfiles_directory s =
        (.error (.genericIoError k), s1) from by
          simp only [add_file, stripRoot_append, hmk]] at hok
      simp at hok
    | ok u =>
      have hs1file : s1 (base_directory ++ tt) = some (Entry.file c) := by
        have h2 := mkdirChain_pres (prefixesOf (dotfiles_directory ++ tt).dropLast) s
          (base_directory ++ tt) (Entry.file c) hfile
        rw [← mkParents_eq, hmk] at h2
        exact h2
      have hdstnd : s1 (dotfiles_directory ++ tt) ≠ some Entry.dir := by
        intro hh
        rw [show add_file (base_directory ++ tt) base_directory dotfiles_directory s =
          (.error (.genericIoError .isADirectory), s1) from by
            simp only [add_file, stripRoot_append, hmk, fs_rename, hs1file, hh]] at hok
        simp at hok
      have hfree : (upd (upd s1 (base_directory ++ tt) none) (dotfiles_directory ++ tt)
          (some (Entry.file c))) (base_directory ++ tt) = none := by
        rw [upd_ne _ _ _ _ hneq, upd_same]
      have heq : add_file (base_directory ++ tt) base_directory dotfiles_directory s =
          (.ok (), upd (upd (upd s1 (base_directory ++ tt) none)
            (dotfiles_directory ++ tt) (some (Entry.file c)))
            (base_directory ++ tt) (some (Entry.symlink (dotfiles_directory ++ tt)))) := by
        simp only [add_file, stripRoot_append, hmk, fs_rename_ok hs1file hdstnd,
          fs_symlink_ok hfree]
      refine ⟨dotfiles_directory ++ tt, ?_, ?_, ?_, ?_⟩
      · simp [toDotfiles, stripRoot_append]
      · simp only [heq]
        exact upd_same _ _ _
      · simp only [heq]
        rw [upd_ne _ _ _ _ (fun hh => hneq hh.symm),
          upd_same]
      · intro c2
        simp only [heq, upd_same]
        intro hh
        cases hh
  · rw [show add_file file base_directory dotfiles_directory s =
      (.error (.baseIsNotPrefixOfFile base_directory file), s) from by
        simp [add_file, stripRoot, hpre]] at hok
    simp at hok

theorem add_postcondition_witness :
    linkedFs ["home", "u", "c"] = none ∧
    (upd linkedFs ["home", "u", "c"] (some (Entry.file "y"))) ["home", "u", "c"] =
      some (Entry.file "y") ∧
    (["home", "u"] : Path) ≠ ["home", "u", "d"] ∧
    (add_file ["home", "u", "c"] ["home", "u"] ["home", "u", "d"]
      (upd linkedFs ["home", "u", "c"] (some (Entry.file "y")))).1 = .ok () ∧
    ∃ tgt, toDotfiles ["home", "u", "c"] ["home", "u"] ["home", "u", "d"] = some tgt ∧
      (add_file ["home", "u", "c"] ["home", "u"] ["home", "u", "d"]
        (upd linkedFs ["home", "u", "c"] (some (Entry.file "y")))).2 ["home", "u", "c"] =
        some (Entry.symlink tgt) ∧
      (add_file ["home", "u", "c"] ["home", "u"] ["home", "u", "d"]
        (upd linkedFs ["home", "u", "c"] (some (Entry.file "y")))).2 tgt =
        some (Entry.file "y") ∧
      ∀ c2, (add_file ["home", "u", "c"] ["home", "u"] ["home", "u", "d"]
        (upd linkedFs ["home", "u", "c"] (some (Entry.file "y")))).2 ["home", "u", "c"] ≠
        some (Entry.file c2) :=
  ⟨rfl, rfl, by decide, rfl,
    add_postcondition ["home", "u", "c"] ["home", "u"] ["home", "u", "d"]
      (upd linkedFs ["home", "u", "c"] (some (Entry.file "y"))) "y" rfl (by decide) rfl⟩

end Dofi

namespace Dofi

theorem mirrorPath_inj {base_directory dotfiles_directory f g : Path}
    (hf : dotfiles_directory <+: f) (hg : dotfiles_directory <+: g)
    (h : mirrorPath base_directory dotfiles_directory f =
      mirrorPath base_directory dotfiles_directory g) : f = g := by
  obtain ⟨tf, rfl⟩ := hf
  obtain ⟨tg, rfl⟩ := hg
  simp only [mirrorPath, List.drop_left] at h
  rw [List.append_cancel_left h]

theorem link_step_true_ok {base_directory dotfiles_directory f : Path} {s t : Fs}
    (hsub : dotfiles_directory <+: f)
    (h : link_step base_directory dotfiles_directory true f s = (.ok (), t)) :
    ∃ s1,
      mkdirChain (prefixesOf (mirrorPath base_directory dotfiles_directory f).dropLast) s =
        (.ok (), s1) ∧
      s1 (mirrorPath base_directory dotfiles_directory f) ≠ some Entry.dir ∧
      t = upd s1 (mirrorPath base_directory dotfiles_directory f)
        (some (Entry.symlink f)) := by
  rcases hmk : mkParents (mirrorPath base_directory dotfiles_directory f) s with ⟨r1, s1⟩
  simp only [link_step, stripRoot_of_sub hsub] at h
  simp only [mirrorPath] at hmk
  rw [hmk] at h
  cases r1 with
  | error k => simp at h
  | ok u =>
    cases u
    rw [← mirrorPath] at hmk
    rw [mkParents_eq] at hmk
    rcases hocc : s1 (base_directory ++ f.drop dotfiles_directory.length) with _ | ent
    · simp [fs_symlink, hocc] at h
      refine ⟨s1, hmk, ?_, ?_⟩
      · simp [mirrorPath, hocc]
      · simp only [mirrorPath]
        exact h.symm
    · cases ent with
      | dir => simp [fs_remove_file, hocc] at h
      | file c =>
        simp [fs_remove_file, fs_symlink, hocc, upd_same] at h
        refine ⟨s1, hmk, ?_, ?_⟩
        · simp [mirrorPath, hocc]
        · simp only [mirrorPath]
          rw [← h, upd_idem]
      | symlink tg =>
        simp [fs_remove_file, fs_symlink, hocc, upd_same] at h
        refine ⟨s1, hmk, ?_, ?_⟩
        · simp [mirrorPath, hocc]
        · simp only [mirrorPath]
          rw [← h, upd_idem]

end Dofi

namespace Dofi

theorem link_step_good {base_directory dotfiles_directory f : Path} {s t : Fs}
    (hsub : dotfiles_directory <+: f)
    (h : link_step base_directory dotfiles_directory true f s = (.ok (), t)) :
    stepGood base_directory dotfiles_directory f t := by
  obtain ⟨s1, hmk, hnd, rfl⟩ := link_step_true_ok hsub h
  constructor
  · exact upd_same _ _ _
  · intro q hq
    rw [upd_ne _ _ _ _ (mem_prefixesOf_dropLast_ne hq)]
    have h1 := mkdirChain_ok_dirs
      (prefixesOf (mirrorPath base_directory dotfiles_directory f).dropLast) s
      (by rw [hmk]) q hq
    rw [hmk] at h1
    exact h1

theorem link_step_noop {base_directory dotfiles_directory f : Path} {s : Fs}
    (hsub : dotfiles_directory <+: f)
    (hg : stepGood base_directory dotfiles_directory f s) :
    link_step base_directory dotfiles_directory true f s = (.ok (), s) := by
  obtain ⟨hsym, hdirs⟩ := hg
  have hmk : mkParents (base_directory ++ f.drop dotfiles_directory.length) s =
      (.ok (), s) := by
    have h2 : mkParents (mirrorPath base_directory dotfiles_directory f) s =
        (.ok (), s) := by
      rw [mkParents_eq]
      exact mkdirChain_noop _ s hdirs
    simpa [mirrorPath] using h2
  have hsym2 : s (base_directory ++ f.drop dotfiles_directory.length) =
      some (Entry.symlink f) := by
    simpa [mirrorPath] using hsym
  simp only [link_step, stripRoot_of_sub hsub, hmk]
  simp [hsym2, fs_remove_file, fs_symlink, upd_same, upd_idem, upd_self _ _ _ hsym2]

theorem link_step_pres_good {base_directory dotfiles_directory f g : Path} {s t : Fs}
    (hf : dotfiles_directory <+: f) (hg : dotfiles_directory <+: g) (hfg : f ≠ g)
    (hgood : stepGood base_directory dotfiles_directory f s)
    (h : link_step base_directory dotfiles_directory true g s = (.ok (), t)) :
    stepGood base_directory dotfiles_directory f t := by
  obtain ⟨s1, hmk, hnd, rfl⟩ := link_step_true_ok hg h
  have hmm : mirrorPath base_directory dotfiles_directory f ≠
      mirrorPath base_directory dotfiles_directory g :=
    fun hh => hfg (mirrorPath_inj hf hg hh)
  obtain ⟨hsym, hdirs⟩ := hgood
  constructor
  · rw [upd_ne _ _ _ _ hmm]
    have h1 := mkdirChain_pres
      (prefixesOf (mirrorPath base_directory dotfiles_directory g).dropLast) s _ _ hsym
    rw [hmk] at h1
    exact h1
  · intro q hq
    have h1 := mkdirChain_pres
      (prefixesOf (mirrorPath base_directory dotfiles_directory g).dropLast) s q
      Entry.dir (hdirs q hq)
    rw [hmk] at h1
    have hqm : q ≠ mirrorPath base_directory dotfiles_directory g := by
      intro hh
      rw [hh] at h1
      exact hnd h1
    rw [upd_ne _ _ _ _ hqm]
    exact h1

end Dofi

namespace Dofi

theorem linkLoop_ok_cons_inv {base_directory dotfiles_directory g : Path}
    {rest : List Path} {s t : Fs}
    (h : linkLoop base_directory dotfiles_directory true (okEntries (g :: rest)) s =
      (.ok (), t)) :
    ∃ s1, link_step base_directory dotfiles_directory true g s = (.ok (), s1) ∧
      linkLoop base_directory dotfiles_directory true (okEntries rest) s1 =
        (.ok (), t) := by
  simp only [okEntries, List.map_cons, linkLoop] at h
  rcases hst : link_step base_directory dotfiles_directory true g s with ⟨r, s1⟩
  rw [hst] at h
  cases r with
  | error err => simp at h
  | ok u =>
    cases u
    exact ⟨s1, rfl, h⟩

theorem linkLoop_pres_good {base_directory dotfiles_directory f : Path}
    {files : List Path} {s t : Fs}
    (hsubs : ∀ g ∈ files, dotfiles_directory <+: g)
    (hf : dotfiles_directory <+: f)
    (hgood : stepGood base_directory dotfiles_directory f s)
    (h : linkLoop base_directory dotfiles_directory true (okEntries files) s =
      (.ok (), t)) :
    stepGood base_directory dotfiles_directory f t := by
  induction files generalizing s with
  | nil =>
    simp only [okEntries, List.map_nil, linkLoop] at h
    injection h with h1 h2
    exact h2 ▸ hgood
  | cons g rest ih =>
    obtain ⟨s1, hstep, hrest⟩ := linkLoop_ok_cons_inv h
    have hg := hsubs g (List.mem_cons_self g rest)
    by_cases hfg : f = g
    · subst hfg
      exact ih (fun q hq => hsubs q (List.mem_cons_of_mem f hq))
        (link_step_good hf hstep) hrest
    · exact ih (fun q hq => hsubs q (List.mem_cons_of_mem g hq))
        (link_step_pres_good hf hg hfg hgood hstep) hrest

theorem linkLoop_good {base_directory dotfiles_directory : Path}
    {files : List Path} {s t : Fs}
    (hsubs : ∀ g ∈ files, dotfiles_directory <+: g)
    (h : linkLoop base_directory dotfiles_directory true (okEntries files) s =
      (.ok (), t)) :
    ∀ f ∈ files, stepGood base_directory dotfiles_directory f t := by
  induction files generalizing s with
  | nil => intro f hf; cases hf
  | cons g rest ih =>
    obtain ⟨s1, hstep, hrest⟩ := linkLoop_ok_cons_inv h
    intro f hf
    rcases List.mem_cons.mp hf with rfl | hf2
    · exact linkLoop_pres_good (fun q hq => hsubs q (List.mem_cons_of_mem f hq))
        (hsubs f (List.mem_cons_self f rest))
        (link_step_good (hsubs f (List.mem_cons_self f rest)) hstep) hrest
    · exact ih (fun q hq => hsubs q (List.mem_cons_of_mem g hq)) hrest f hf2

theorem link_step_dot_pres {base_directory dotfiles_directory f : Path} {s t : Fs}
    (hsub : dotfiles_directory <+: f)
    (hout : ¬ dotfiles_directory <+: mirrorPath base_directory dotfiles_directory f)
    (h : link_step base_directory dotfiles_directory true f s = (.ok (), t)) :
    ∀ p, dotfiles_directory <+: p → t p = s p := by
  obtain ⟨s1, hmk, hnd, rfl⟩ := link_step_true_ok hsub h
  intro p hp
  have hpm : p ≠ mirrorPath base_directory dotfiles_directory f :=
    fun hh => hout (hh ▸ hp)
  rw [upd_ne _ _ _ _ hpm]
  have hpout : p ∉ prefixesOf (mirrorPath base_directory dotfiles_directory f).dropLast := by
    intro hmem
    exact hout (hp.trans ((mem_prefixesOf hmem).trans (List.dropLast_prefix _)))
  have h1 := mkdirChain_outside
    (prefixesOf (mirrorPath base_directory dotfiles_directory f).dropLast) s p hpout
  rw [hmk] at h1
  exact h1

theorem linkLoop_dot_pres {base_directory dotfiles_directory : Path}
    {files : List Path} {s t : Fs}
    (hsubs : ∀ g ∈ files, dotfiles_directory <+: g)
    (hout : ∀ g ∈ files,
      ¬ dotfiles_directory <+: mirrorPath base_directory dotfiles_directory g)
    (h : linkLoop base_directory dotfiles_directory true (okEntries files) s =
      (.ok (), t)) :
    ∀ p, dotfiles_directory <+: p → t p = s p := by
  induction files generalizing s with
  | nil =>
    simp only [okEntries, List.map_nil, linkLoop] at h
    injection h with h1 h2
    intro p hp
    rw [← h2]
  | cons g rest ih =>
    obtain ⟨s1, hstep, hrest⟩ := linkLoop_ok_cons_inv h
    intro p hp
    have e1 := link_step_dot_pres (hsubs g (List.mem_cons_self g rest))
      (hout g (List.mem_cons_self g rest)) hstep p hp
    have e2 := ih (fun q hq => hsubs q (List.mem_cons_of_mem g hq))
      (fun q hq => hout q (List.mem_cons_of_mem g hq)) hrest p hp
    rw [e2, e1]

theorem linkLoop_noop {base_directory dotfiles_directory : Path}
    {files : List Path} {s : Fs}
    (h : ∀ f ∈ files, dotfiles_directory <+: f ∧
      stepGood base_directory dotfiles_directory f s) :
    linkLoop base_directory dotfiles_directory true (okEntries files) s =
      (.ok (), s) := by
  induction files with
  | nil => rfl
  | cons g rest ih =>
    have hg := h g (List.mem_cons_self g rest)
    simp only [okEntries, List.map_cons, linkLoop]
    rw [link_step_noop hg.1 hg.2]
    exact ih (fun q hq => h q (List.mem_cons_of_mem g hq))

end Dofi

namespace Dofi

/-- Claim C4: Link idempotence under force.  For a filesystem on which
a forced link run over the walked dotfiles files succeeds — the walked
list being exactly the regular files under the dotfiles directory, and
their mirrored base-tree paths lying outside the dotfiles subtree — a
second forced run (over a walk of the resulting filesystem) succeeds
and leaves the filesystem unchanged, so running Link with force twice
produces the same end state as running it once. -/
theorem link_force_idempotent (base_directory dotfiles_directory : Path)
    (files files2 : List Path) (s : Fs)
    (hsub1 : ∀ f ∈ files, dotfiles_directory <+: f)
    (hout : ∀ f ∈ files,
      ¬ dotfiles_directory <+: mirrorPath base_directory dotfiles_directory f)
    (hcomp : ∀ p, dotfiles_directory <+: p →
      (∃ c, s p = some (Entry.file c)) → p ∈ files)
    (hok1 : (linkLoop base_directory dotfiles_directory true (okEntries files) s).1 =
      .ok ())
    (hsub2 : ∀ f ∈ files2, dotfiles_directory <+: f ∧
      ∃ c, (linkLoop base_directory dotfiles_directory true (okEntries files) s).2 f =
        some (Entry.file c)) :
    linkLoop base_directory dotfiles_directory true (okEntries files2)
      ((linkLoop base_directory dotfiles_directory true (okEntries files) s).2) =
      (.ok (),
        (linkLoop base_directory dotfiles_directory true (okEntries files) s).2) := by
  have hrun : linkLoop base_directory dotfiles_directory true (okEntries files) s =
      (.ok (),
        (linkLoop base_directory dotfiles_directory true (okEntries files) s).2) := by
    rw [← hok1]
  apply linkLoop_noop
  intro f hf
  obtain ⟨hfsub, c, hfc⟩ := hsub2 f hf
  have hsf : s f = some (Entry.file c) := by
    rw [← linkLoop_dot_pres hsub1 hout hrun f hfsub]
    exact hfc
  exact ⟨hfsub, linkLoop_good hsub1 hrun f (hcomp f hfsub ⟨c, hsf⟩)⟩

theorem link_force_idempotent_witness :
    (∀ f ∈ ([["home", "u", "d", "v"]] : List Path), (["home", "u", "d"] : Path) <+: f) ∧
    (∀ f ∈ ([["home", "u", "d", "v"]] : List Path),
      ¬ (["home", "u", "d"] : Path) <+: mirrorPath ["home", "u"] ["home", "u", "d"] f) ∧
    (∀ p, (["home", "u", "d"] : Path) <+: p → (∃ c, demoFs p = some (Entry.file c)) →
      p ∈ ([["home", "u", "d", "v"]] : List Path)) ∧
    (linkLoop ["home", "u"] ["home", "u", "d"] true
      (okEntries [["home", "u", "d", "v"]]) demoFs).1 = .ok () ∧
    (∀ f ∈ ([["home", "u", "d", "v"]] : List Path), (["home", "u", "d"] : Path) <+: f ∧
      ∃ c, (linkLoop ["home", "u"] ["home", "u", "d"] true
        (okEntries [["home", "u", "d", "v"]]) demoFs).2 f = some (Entry.file c)) ∧
    linkLoop ["home", "u"] ["home", "u", "d"] true (okEntries [["home", "u", "d", "v"]])
      ((linkLoop ["home", "u"] ["home", "u", "d"] true
        (okEntries [["home", "u", "d", "v"]]) demoFs).2) =
      (.ok (), (linkLoop ["home", "u"] ["home", "u", "d"] true
        (okEntries [["home", "u", "d", "v"]]) demoFs).2) :=
  ⟨by decide, by decide,
    by
      intro p hp hc
      obtain ⟨c, hc⟩ := hc
      simp only [demoFs, upd] at hc
      split_ifs at hc with h1 h2 h3 h4 <;> simp_all,
    rfl,
    by
      intro f hf
      simp only [List.mem_singleton] at hf
      subst hf
      exact ⟨by decide, ⟨"x", rfl⟩⟩,
    link_force_idempotent ["home", "u"] ["home", "u", "d"]
      [["home", "u", "d", "v"]] [["home", "u", "d", "v"]] demoFs
      (by decide) (by decide)
      (by
        intro p hp hc
        obtain ⟨c, hc⟩ := hc
        simp only [demoFs, upd] at hc
        split_ifs at hc with h1 h2 h3 h4 <;> simp_all)
      rfl
      (by
        intro f hf
        simp only [List.mem_singleton] at hf
        subst hf
        exact ⟨by decide, ⟨"x", rfl⟩⟩)⟩

end Dofi
